import Mathlib

/-!
Verification of the open-insights core module (`src/index.ts`).

The module orchestrates one RUM session: `init` waits for page readiness,
optionally delays via `startLater`, then `start` runs the provider
fan-out/fan-in and dispatches to a processing function.

The shallow embedding below models:
  * a `Provider` by the data its four capabilities return
    (`shouldRun`, the settled outcome of `fetchSessionConfig`, `expandTasks`;
    `setSessionConfig` is a pure side effect recorded in the trace);
  * a promise's settlement as a `POutcome` (`resolved`, `rejected`, or
    forever `pending`);
  * every capability invocation, timer registration, field assignment and
    processing-function dispatch as an `Event`, so that the functions
    return the ordered invocation trace next to the session outcome.

Providers are identified by their position in `settings.providers`.
-/

set_option autoImplicit false

namespace OpenInsights

/-- A promise rejection reason: either a thrown `TypeError` (e.g. reading a
property of `undefined`) or an opaque reason produced by user code. -/
inductive Err where
  | typeError : Err
  | reason : Nat → Err
deriving DecidableEq, Repr

/-- The settled state of a promise: fulfilled with a value, rejected with a
reason, or never settled at all. -/
inductive POutcome (Res : Type) where
  | resolved : Res → POutcome Res
  | rejected : Err → POutcome Res
  | pending : POutcome Res
deriving DecidableEq, Repr

/-- `ExecutableContainer`: the configuration object a provider's fetch
produces.  `data` stands for all provider-owned fields; `executables` is the
field the orchestrator later assigns (`undefined` before assignment, hence
`Option`). -/
structure ExecutableContainer (Cfg Exec : Type) where
  data : Cfg
  executables : Option (List Exec)
deriving DecidableEq, Repr

/-- A `Provider`, modelled by what its capabilities return during the single
session pass: the boolean `shouldRun()` yields, the settled outcome of
`fetchSessionConfig()`, and the task list `expandTasks()` yields. -/
structure Provider (Cfg Exec : Type) where
  shouldRun : Bool
  fetchSessionConfig : Except Err (ExecutableContainer Cfg Exec)
  expandTasks : List Exec
deriving Repr

/-- `ClientSettings`: the validated session configuration.  The delay is the
spec's optional non-negative millisecond duration; `sessionProcess` is the
optional processing-function override. -/
structure ClientSettings (Cfg Exec Res : Type) where
  providers : List (Provider Cfg Exec)
  preConfigStartDelay : Option Nat
  sessionProcess : Option (List (ExecutableContainer Cfg Exec) → Except Err Res)

/-- One observable step of the orchestration: a capability invocation on the
provider at a given original index, a timer registration, an `executables`
field assignment, or the processing-function dispatch. -/
inductive Event (Cfg Exec : Type) where
  | shouldRunCall : Nat → Event Cfg Exec
  | fetchCall : Nat → Event Cfg Exec
  | setSessionConfigCall : Nat → ExecutableContainer Cfg Exec → Event Cfg Exec
  | expandTasksCall : Nat → Event Cfg Exec
  | assignExecutables : Nat → List Exec → Event Cfg Exec
  | timerSet : Nat → Bool → Event Cfg Exec
  | processCall : List (ExecutableContainer Cfg Exec) → Event Cfg Exec
deriving DecidableEq, Repr

section Model

variable {Cfg Exec Res : Type}

/-- Lift a settled `Except` result to a promise outcome. -/
def outcomeOfExcept : Except Err Res → POutcome Res
  | .ok r => POutcome.resolved r
  | .error e => POutcome.rejected e

/-- `providers.filter((provider) => provider.shouldRun())`, keeping each
surviving provider paired with its index in the original list. -/
def eligiblePairs : List (Provider Cfg Exec) → Nat → List (Nat × Provider Cfg Exec)
  | [], _ => []
  | p :: ps, i =>
      if p.shouldRun then (i, p) :: eligiblePairs ps (i + 1)
      else eligiblePairs ps (i + 1)

/-- The surviving configurations: settle every eligible fetch
(`Promise.allSettled`), keep the fulfilled ones, extract their values
(`settled.filter(fulfilled).map(value)`). -/
def sessionConfigsOf (settings : ClientSettings Cfg Exec Res) :
    List (ExecutableContainer Cfg Exec) :=
  ((eligiblePairs settings.providers 0).map
      (fun ip => ip.2.fetchSessionConfig)).filterMap Except.toOption

/-- The `sessionConfigs.forEach((v, i) => ...)` loop of `start`: for the
surviving configuration at running index `i`, look up
`settings.providers[i]` — the ORIGINAL list, at the surviving position — call
its `setSessionConfig`, then assign `v.executables = p.expandTasks()`.  An
out-of-range lookup yields `undefined` and the member access throws. -/
def mutateLoop (providers : List (Provider Cfg Exec)) :
    List (ExecutableContainer Cfg Exec) → Nat →
    List (Event Cfg Exec) × Except Err (List (ExecutableContainer Cfg Exec))
  | [], _ => ([], Except.ok [])
  | v :: rest, i =>
      match providers[i]? with
      | none => ([], Except.error Err.typeError)
      | some p =>
          let tasks := p.expandTasks
          let next := mutateLoop providers rest (i + 1)
          (Event.setSessionConfigCall i v :: Event.expandTasksCall i ::
              Event.assignExecutables i tasks :: next.1,
           match next.2 with
           | .ok vs => Except.ok ({ v with executables := some tasks } :: vs)
           | .error e => Except.error e)

/-- Modelled from the spec: the default processing function
(`src/util/defaultSessionProcessFunc`, not part of the provided sources) is
the no-op fallback used when the caller supplies none; it resolves with a
default `SessionResult` without inspecting the containers. -/
def defaultSessionProcessFunc [Inhabited Res] :
    List (ExecutableContainer Cfg Exec) → Except Err Res :=
  fun _ => Except.ok default

/-- The events emitted before the join barrier: one `shouldRun` call per
configured provider in order, then one fetch call per eligible provider. -/
def preTraceOf (settings : ClientSettings Cfg Exec Res) : List (Event Cfg Exec) :=
  (List.range settings.providers.length).map Event.shouldRunCall
    ++ (eligiblePairs settings.providers 0).map (fun ip => Event.fetchCall ip.1)

/-- The orchestrator `start`: filter by `shouldRun`, fan out the fetches,
join with `Promise.allSettled`, keep the fulfilled configurations, run the
mutation loop, then dispatch
`(settings.sessionProcess || defaultSessionProcessFunc)(sessionConfigs)`. -/
def start [Inhabited Res] (settings : ClientSettings Cfg Exec Res) :
    List (Event Cfg Exec) × POutcome Res :=
  let sessionConfigs := sessionConfigsOf settings
  let m := mutateLoop settings.providers sessionConfigs 0
  match m.2 with
  | .error e => (preTraceOf settings ++ m.1, POutcome.rejected e)
  | .ok configs =>
      (preTraceOf settings ++ m.1 ++ [Event.processCall configs],
       outcomeOfExcept
         ((settings.sessionProcess.getD defaultSessionProcessFunc) configs))

/-- `startLater`: `new Promise((resolve) => setTimeout(() =>`
`start(settings).then((result) => resolve(result)), delay))`.  The timer is a
single-shot `setTimeout`; only a fulfilment of `start` is forwarded — a
rejection has no handler, so the outer promise never settles. -/
def startLater [Inhabited Res] (delay : Nat) (settings : ClientSettings Cfg Exec Res) :
    List (Event Cfg Exec) × POutcome Res :=
  let s := start settings
  (Event.timerSet delay false :: s.1,
   match s.2 with
   | .resolved r => POutcome.resolved r
   | _ => POutcome.pending)

/-- Modelled from the spec: the readiness gate
(`src/util/loadWhenDocumentReady`, not part of the provided sources) is a
single-shot deferred value with no payload that resolves once the document
is ready; the claims below concern behaviour after readiness, so it is the
resolved outcome. -/
def whenReady : POutcome Unit := POutcome.resolved ()

/-- Promise chaining (`.then`) against a trace-producing continuation:
a rejection or a forever-pending antecedent short-circuits. -/
def pthen {α : Type} (p : POutcome α)
    (f : α → List (Event Cfg Exec) × POutcome Res) :
    List (Event Cfg Exec) × POutcome Res :=
  match p with
  | .resolved a => f a
  | .rejected e => ([], POutcome.rejected e)
  | .pending => ([], POutcome.pending)

/-- The entry point `init`: wait for readiness, then
`if (settings.preConfigStartDelay) startLater(delay, settings)` —
JavaScript truthiness: a present, non-zero delay — `else start(settings)`. -/
def init [Inhabited Res] (settings : ClientSettings Cfg Exec Res) :
    List (Event Cfg Exec) × POutcome Res :=
  pthen whenReady (fun _ =>
    match settings.preConfigStartDelay with
    | some d => if d ≠ 0 then startLater d settings else start settings
    | none => start settings)

/-- The enriched configuration list the mutation loop produces when every
provider lookup lands in bounds: position `k` is the `k`-th surviving
configuration with `executables` assigned from the provider at original
index `startIdx + k`. -/
def enrichFrom (providers : List (Provider Cfg Exec)) :
    List (ExecutableContainer Cfg Exec) → Nat →
    List (ExecutableContainer Cfg Exec)
  | [], _ => []
  | v :: rest, i =>
      (match providers[i]? with
       | some p => { v with executables := some p.expandTasks }
       | none => v) :: enrichFrom providers rest (i + 1)

/-- The sequence handed to the processing function. -/
def enrichedConfigs (settings : ClientSettings Cfg Exec Res) :
    List (ExecutableContainer Cfg Exec) :=
  enrichFrom settings.providers (sessionConfigsOf settings) 0

/-- Recognizer: a `setSessionConfig` invocation on provider `i`. -/
def isSetConfigFor (i : Nat) : Event Cfg Exec → Bool
  | .setSessionConfigCall j _ => j == i
  | _ => false

/-- Recognizer: an `expandTasks` invocation on provider `i`. -/
def isExpandFor (i : Nat) : Event Cfg Exec → Bool
  | .expandTasksCall j => j == i
  | _ => false

/-- Recognizer: a `fetchSessionConfig` invocation on provider `i`. -/
def isFetchFor (i : Nat) : Event Cfg Exec → Bool
  | .fetchCall j => j == i
  | _ => false

/-- Recognizer: a `shouldRun` invocation on provider `i`. -/
def isShouldRunFor (i : Nat) : Event Cfg Exec → Bool
  | .shouldRunCall j => j == i
  | _ => false

/-- Recognizer: the `executables` assignment at surviving position `k`. -/
def isAssignFor (k : Nat) : Event Cfg Exec → Bool
  | .assignExecutables j _ => j == k
  | _ => false

/-- Recognizer: a processing-function dispatch. -/
def isProcessCall : Event Cfg Exec → Bool
  | .processCall _ => true
  | _ => false

/-- Recognizer: a timer registration. -/
def isTimerSet : Event Cfg Exec → Bool
  | .timerSet _ _ => true
  | _ => false

end Model

/-! Concrete sessions used to evaluate the code at specific inputs. -/

/-- Provider at original index 0 of `settingsAB`: ineligible
(`shouldRun` is `false`), `expandTasks` yields `[1]`. -/
def provA : Provider Nat Nat :=
  { shouldRun := false, fetchSessionConfig := Except.ok ⟨99, none⟩, expandTasks := [1] }

/-- Provider at original index 1 of `settingsAB`: eligible, fetch fulfils
with the container `{data := 10}`, `expandTasks` yields `[2]`. -/
def provB : Provider Nat Nat :=
  { shouldRun := true, fetchSessionConfig := Except.ok ⟨10, none⟩, expandTasks := [2] }

/-- Two providers, the first ineligible: the surviving configuration
originates from the provider at filtered position 0 = original index 1. -/
def settingsAB : ClientSettings Nat Nat Nat :=
  { providers := [provA, provB], preConfigStartDelay := none, sessionProcess := none }

/-- Provider at original index 0 of `settingsFG`: eligible but its fetch
rejects. -/
def provF : Provider Nat Nat :=
  { shouldRun := true, fetchSessionConfig := Except.error (Err.reason 3), expandTasks := [1] }

/-- Provider at original index 1 of `settingsFG`: eligible, fetch fulfils
with the container `{data := 20}`, `expandTasks` yields `[2]`. -/
def provG : Provider Nat Nat :=
  { shouldRun := true, fetchSessionConfig := Except.ok ⟨20, none⟩, expandTasks := [2] }

/-- Two eligible providers of which the first one's fetch fails. -/
def settingsFG : ClientSettings Nat Nat Nat :=
  { providers := [provF, provG], preConfigStartDelay := none, sessionProcess := none }

/-- No providers, a positive start delay, and a processing function that
rejects with reason 7. -/
def settingsDelayReject : ClientSettings Nat Nat Nat :=
  { providers := [], preConfigStartDelay := some 1,
    sessionProcess := some (fun _ => Except.error (Err.reason 7)) }

/-- No providers, a positive start delay, and a processing function that
rejects with reason 9. -/
def settingsDelayReject9 : ClientSettings Nat Nat Nat :=
  { providers := [], preConfigStartDelay := some 2,
    sessionProcess := some (fun _ => Except.error (Err.reason 9)) }

/-- No providers, no delay, and a processing function that fulfils with 5. -/
def settingsEmptyOk : ClientSettings Nat Nat Nat :=
  { providers := [], preConfigStartDelay := none,
    sessionProcess := some (fun _ => Except.ok 5) }

/-- No providers, a start delay of 2 ms, and the default processing
function. -/
def settingsTimer : ClientSettings Nat Nat Nat :=
  { providers := [], preConfigStartDelay := some 2, sessionProcess := none }

/-- C1: the claim states that each surviving configuration is handed back
to its originating provider, located by its position in the filtered
eligible list.  Evaluating the code on `settingsAB` refutes this: the one
surviving configuration `{data := 10}` originates from the provider at
filtered position 0, which is original index 1, yet `setSessionConfig` is
invoked on the provider at original index 0 (the ineligible `provA`) and
never on the provider at original index 1, because the mutation loop reads
`settings.providers[i]` with `i` the surviving position taken in the
original, unfiltered list. -/
theorem C1_correlation_uses_original_index :
    Event.setSessionConfigCall 0 ⟨10, none⟩ ∈ (start settingsAB).1
      ∧ (start settingsAB).1.countP (isSetConfigFor 1) = 0 := by
  decide

/-- C2: the claim states that each element handed to the processing
function carries the `expandTasks` output of the provider that produced its
configuration.  Evaluating the code on `settingsAB` refutes this: the
processing function receives the configuration produced by the provider at original
index 1 (whose `expandTasks` is `[2]`) carrying executables `[1]`, which is
`provA.expandTasks` — the misindexed provider. -/
theorem C2_executables_from_wrong_provider :
    Event.processCall [⟨10, some [1]⟩] ∈ (start settingsAB).1
      ∧ (settingsAB.providers[1]?).map Provider.expandTasks = some [2]
      ∧ Event.processCall [⟨10, some [2]⟩] ∉ (start settingsAB).1 := by
  decide

/-- C3: the claim states that a provider whose `shouldRun` returned `false`
never has `setSessionConfig` or `expandTasks` invoked.  Evaluating the code
on `settingsAB` refutes this: provider 0 is ineligible
(`shouldRun = false`), yet its `setSessionConfig` and `expandTasks` are each
invoked once, because the mutation loop indexes the original provider
list. -/
theorem C3_filtered_provider_still_invoked :
    (settingsAB.providers[0]?).map Provider.shouldRun = some false
      ∧ (start settingsAB).1.countP (isSetConfigFor 0) = 1
      ∧ (start settingsAB).1.countP (isExpandFor 0) = 1
      ∧ (start settingsAB).1.countP (isFetchFor 0) = 0 := by
  decide

/-- C4: the claim states that one provider's fetch failure never affects
sibling providers.  Evaluating the code on `settingsFG` refutes this: both
providers are eligible, provider 0's fetch fails, provider 1's fetch
fulfils — yet provider 1's surviving configuration is handed to provider 0
(`setSessionConfig`), receives provider 0's `expandTasks` output `[1]`, and
provider 1 is never called back, all caused by the sibling's failure
shifting the surviving position.  The session outcome itself still
resolves. -/
theorem C4_sibling_failure_shifts_correlation :
    Event.setSessionConfigCall 0 ⟨20, none⟩ ∈ (start settingsFG).1
      ∧ Event.assignExecutables 0 [1] ∈ (start settingsFG).1
      ∧ (start settingsFG).1.countP (isSetConfigFor 1) = 0
      ∧ (start settingsFG).2 = POutcome.resolved 0 := by
  decide

/-- C6: the claim states that a rejection of the processing function's
deferred result propagates to `init`'s deferred result with the same
reason.  Evaluating the code on `settingsDelayReject` refutes this: with a
positive `preConfigStartDelay` the orchestration's rejection (reason 7) is
not forwarded by `startLater` — its executor only calls `resolve` on
fulfilment — so `init`'s promise never settles at all. -/
theorem C6_delay_swallows_rejection :
    (start settingsDelayReject).2 = POutcome.rejected (Err.reason 7)
      ∧ (init settingsDelayReject).2 = POutcome.pending := by
  decide

/-! Helper lemmas shared by the remaining claims. -/

section Lemmas

variable {Cfg Exec Res : Type}

theorem length_eligiblePairs_le (ps : List (Provider Cfg Exec)) :
    ∀ i, (eligiblePairs ps i).length ≤ ps.length := by
  induction ps with
  | nil => intro i; simp [eligiblePairs]
  | cons p ps ih =>
      intro i
      by_cases h : p.shouldRun
      · simpa [eligiblePairs, h] using ih (i + 1)
      · simp only [eligiblePairs, h, if_false, Bool.false_eq_true, List.length_cons]
        exact Nat.le_succ_of_le (ih (i + 1))

theorem sessionConfigsOf_length_le (s : ClientSettings Cfg Exec Res) :
    (sessionConfigsOf s).length ≤ s.providers.length := by
  simp only [sessionConfigsOf]
  calc (((eligiblePairs s.providers 0).map
          (fun ip => ip.2.fetchSessionConfig)).filterMap Except.toOption).length
      ≤ ((eligiblePairs s.providers 0).map
          (fun ip => ip.2.fetchSessionConfig)).length :=
        List.length_filterMap_le _ _
    _ = (eligiblePairs s.providers 0).length := List.length_map _ _
    _ ≤ s.providers.length := length_eligiblePairs_le _ _

theorem mutateLoop_eq_ok (ps : List (Provider Cfg Exec)) :
    ∀ (cfgs : List (ExecutableContainer Cfg Exec)) (i : Nat),
      i + cfgs.length ≤ ps.length →
      (mutateLoop ps cfgs i).2 = Except.ok (enrichFrom ps cfgs i) := by
  intro cfgs
  induction cfgs with
  | nil => intro i _; rfl
  | cons v rest ih =>
      intro i h
      have hi : i < ps.length := by simp only [List.length_cons] at h; omega
      have hp : ps[i]? = some ps[i] := List.getElem?_eq_getElem hi
      have hr := ih (i + 1) (by simp only [List.length_cons] at h; omega)
      simp [mutateLoop, enrichFrom, hp, hr]

theorem start_eq [Inhabited Res] (s : ClientSettings Cfg Exec Res) :
    start s =
      (preTraceOf s ++ (mutateLoop s.providers (sessionConfigsOf s) 0).1
          ++ [Event.processCall (enrichedConfigs s)],
       outcomeOfExcept
         ((s.sessionProcess.getD defaultSessionProcessFunc) (enrichedConfigs s))) := by
  have h : (mutateLoop s.providers (sessionConfigsOf s) 0).2
      = Except.ok (enrichedConfigs s) :=
    mutateLoop_eq_ok s.providers (sessionConfigsOf s) 0
      (by simpa using sessionConfigsOf_length_le s)
  simp [start, h, enrichedConfigs]

theorem mem_mutateLoop_trace {ps : List (Provider Cfg Exec)} :
    ∀ {cfgs : List (ExecutableContainer Cfg Exec)} {i : Nat} {e : Event Cfg Exec},
      e ∈ (mutateLoop ps cfgs i).1 →
      (∃ j v, e = Event.setSessionConfigCall j v)
        ∨ (∃ j, e = Event.expandTasksCall j)
        ∨ (∃ j ts, e = Event.assignExecutables j ts) := by
  intro cfgs
  induction cfgs with
  | nil => intro i e he; simp [mutateLoop] at he
  | cons v rest ih =>
      intro i e he
      cases hp : ps[i]? with
      | none => simp [mutateLoop, hp] at he
      | some p =>
          simp only [mutateLoop, hp, List.mem_cons] at he
          rcases he with rfl | rfl | rfl | he
          · exact Or.inl ⟨i, v, rfl⟩
          · exact Or.inr (Or.inl ⟨i, rfl⟩)
          · exact Or.inr (Or.inr ⟨i, _, rfl⟩)
          · exact ih he

theorem countP_isProcessCall_mutateLoop (ps : List (Provider Cfg Exec))
    (cfgs : List (ExecutableContainer Cfg Exec)) (i : Nat) :
    ((mutateLoop ps cfgs i).1).countP isProcessCall = 0 := by
  refine List.countP_eq_zero.2 (fun e he => ?_)
  rcases mem_mutateLoop_trace he with ⟨j, v, rfl⟩ | ⟨j, rfl⟩ | ⟨j, ts, rfl⟩ <;>
    simp [isProcessCall]

theorem countP_isTimerSet_mutateLoop (ps : List (Provider Cfg Exec))
    (cfgs : List (ExecutableContainer Cfg Exec)) (i : Nat) :
    ((mutateLoop ps cfgs i).1).countP isTimerSet = 0 := by
  refine List.countP_eq_zero.2 (fun e he => ?_)
  rcases mem_mutateLoop_trace he with ⟨j, v, rfl⟩ | ⟨j, rfl⟩ | ⟨j, ts, rfl⟩ <;>
    simp [isTimerSet]

theorem countP_isProcessCall_preTrace (s : ClientSettings Cfg Exec Res) :
    (preTraceOf s).countP isProcessCall = 0 := by
  refine List.countP_eq_zero.2 (fun e he => ?_)
  simp only [preTraceOf, List.mem_append, List.mem_map, List.mem_range] at he
  rcases he with ⟨j, _, rfl⟩ | ⟨ip, _, rfl⟩ <;> simp [isProcessCall]

theorem countP_isTimerSet_preTrace (s : ClientSettings Cfg Exec Res) :
    (preTraceOf s).countP isTimerSet = 0 := by
  refine List.countP_eq_zero.2 (fun e he => ?_)
  simp only [preTraceOf, List.mem_append, List.mem_map, List.mem_range] at he
  rcases he with ⟨j, _, rfl⟩ | ⟨ip, _, rfl⟩ <;> simp [isTimerSet]

theorem countP_isProcessCall_start [Inhabited Res] (s : ClientSettings Cfg Exec Res) :
    (start s).1.countP isProcessCall = 1 := by
  rw [start_eq]
  simp [List.countP_append, countP_isProcessCall_preTrace,
    countP_isProcessCall_mutateLoop, List.countP_cons, isProcessCall]

theorem countP_isTimerSet_start [Inhabited Res] (s : ClientSettings Cfg Exec Res) :
    (start s).1.countP isTimerSet = 0 := by
  rw [start_eq]
  simp [List.countP_append, countP_isTimerSet_preTrace,
    countP_isTimerSet_mutateLoop, List.countP_cons, isTimerSet]

theorem processCall_mem_start [Inhabited Res] (s : ClientSettings Cfg Exec Res) :
    Event.processCall (enrichedConfigs s) ∈ (start s).1 := by
  rw [start_eq]
  simp

theorem init_eq_start_of_falsy [Inhabited Res] {s : ClientSettings Cfg Exec Res}
    (h : s.preConfigStartDelay = none ∨ s.preConfigStartDelay = some 0) :
    init s = start s := by
  rcases h with h | h <;> simp [init, pthen, whenReady, h]

theorem init_eq_startLater [Inhabited Res] {s : ClientSettings Cfg Exec Res} {d : Nat}
    (h : s.preConfigStartDelay = some d) (hd : d ≠ 0) :
    init s = startLater d s := by
  simp [init, pthen, whenReady, h, hd]

theorem startLater_fst [Inhabited Res] (d : Nat) (s : ClientSettings Cfg Exec Res) :
    (startLater d s).1 = Event.timerSet d false :: (start s).1 := rfl

theorem startLater_snd_resolved [Inhabited Res] {d : Nat}
    {s : ClientSettings Cfg Exec Res} {r : Res}
    (h : (start s).2 = POutcome.resolved r) :
    (startLater d s).2 = POutcome.resolved r := by
  simp [startLater, h]

theorem init_snd_resolved [Inhabited Res] {s : ClientSettings Cfg Exec Res} {r : Res}
    (h : (start s).2 = POutcome.resolved r) :
    (init s).2 = POutcome.resolved r := by
  cases hd : s.preConfigStartDelay with
  | none => rw [init_eq_start_of_falsy (Or.inl hd)]; exact h
  | some d =>
      by_cases h0 : d = 0
      · subst h0; rw [init_eq_start_of_falsy (Or.inr hd)]; exact h
      · rw [init_eq_startLater hd h0]; exact startLater_snd_resolved h

theorem init_fst_cases [Inhabited Res] (s : ClientSettings Cfg Exec Res) :
    (init s).1 = (start s).1
      ∨ ∃ d, d ≠ 0 ∧ s.preConfigStartDelay = some d
          ∧ (init s).1 = Event.timerSet d false :: (start s).1 := by
  cases hd : s.preConfigStartDelay with
  | none => exact Or.inl (by rw [init_eq_start_of_falsy (Or.inl hd)])
  | some d =>
      by_cases h0 : d = 0
      · subst h0; exact Or.inl (by rw [init_eq_start_of_falsy (Or.inr hd)])
      · exact Or.inr ⟨d, h0, rfl, by rw [init_eq_startLater hd h0, startLater_fst]⟩

theorem countP_isProcessCall_init [Inhabited Res] (s : ClientSettings Cfg Exec Res) :
    (init s).1.countP isProcessCall = (start s).1.countP isProcessCall := by
  rcases init_fst_cases s with h | ⟨d, _, _, h⟩ <;>
    simp [h, List.countP_cons, isProcessCall]

theorem processCall_mem_init [Inhabited Res] {s : ClientSettings Cfg Exec Res}
    {cs : List (ExecutableContainer Cfg Exec)}
    (h : Event.processCall cs ∈ (start s).1) :
    Event.processCall cs ∈ (init s).1 := by
  rcases init_fst_cases s with h1 | ⟨d, _, _, h1⟩ <;> simp [h1, h]

theorem eligiblePairs_eq_nil {ps : List (Provider Cfg Exec)}
    (h : ∀ p ∈ ps, p.shouldRun = false) :
    ∀ i, eligiblePairs ps i = [] := by
  induction ps with
  | nil => intro i; rfl
  | cons p ps ih =>
      intro i
      have hp : p.shouldRun = false := h p (by simp)
      simp only [eligiblePairs, hp, Bool.false_eq_true, if_false]
      exact ih (fun q hq => h q (by simp [hq])) (i + 1)

theorem sessionConfigsOf_eq_nil {s : ClientSettings Cfg Exec Res}
    (h : s.providers = []
        ∨ (∀ p ∈ s.providers, p.shouldRun = false)
        ∨ (∀ ip ∈ eligiblePairs s.providers 0,
            ip.2.fetchSessionConfig.toOption = none)) :
    sessionConfigsOf s = [] := by
  rcases h with h | h | h
  · simp [sessionConfigsOf, h, eligiblePairs]
  · simp [sessionConfigsOf, eligiblePairs_eq_nil h 0]
  · simp only [sessionConfigsOf]
    refine List.filterMap_eq_nil_iff.2 (fun x hx => ?_)
    rcases List.mem_map.1 hx with ⟨ip, hip, rfl⟩
    exact h ip hip

theorem enrichFrom_getElem? (ps : List (Provider Cfg Exec)) :
    ∀ (cfgs : List (ExecutableContainer Cfg Exec)) (i k : Nat),
      (enrichFrom ps cfgs i)[k]? = (cfgs[k]?).map (fun v =>
        match ps[i + k]? with
        | some p => { v with executables := some p.expandTasks }
        | none => v) := by
  intro cfgs
  induction cfgs with
  | nil => intro i k; simp [enrichFrom]
  | cons v rest ih =>
      intro i k
      cases k with
      | zero => simp [enrichFrom]
      | succ k =>
          simp only [enrichFrom, List.getElem?_cons_succ]
          rw [ih (i + 1) k]
          have harith : i + 1 + k = i + (k + 1) := by omega
          rw [harith]

theorem countP_isAssignFor_mutateLoop_lt (ps : List (Provider Cfg Exec)) :
    ∀ (cfgs : List (ExecutableContainer Cfg Exec)) (i k : Nat), k < i →
      ((mutateLoop ps cfgs i).1).countP (isAssignFor k) = 0 := by
  intro cfgs
  induction cfgs with
  | nil => intro i k _; rfl
  | cons v rest ih =>
      intro i k h
      cases hp : ps[i]? with
      | none => simp [mutateLoop, hp]
      | some p =>
          have hne : (i == k) = false := by simp; omega
          simp [mutateLoop, hp, List.countP_cons, isAssignFor, hne,
            ih (i + 1) k (by omega)]

theorem countP_isAssignFor_mutateLoop (ps : List (Provider Cfg Exec)) :
    ∀ (cfgs : List (ExecutableContainer Cfg Exec)) (i k : Nat),
      i ≤ k → k < i + cfgs.length → i + cfgs.length ≤ ps.length →
      ((mutateLoop ps cfgs i).1).countP (isAssignFor k) = 1 := by
  intro cfgs
  induction cfgs with
  | nil => intro i k h1 h2 _; simp only [List.length_nil] at h2; omega
  | cons v rest ih =>
      intro i k h1 h2 h3
      have hi : i < ps.length := by simp only [List.length_cons] at h3; omega
      have hp : ps[i]? = some ps[i] := List.getElem?_eq_getElem hi
      by_cases hk : k = i
      · subst hk
        have h0 := countP_isAssignFor_mutateLoop_lt ps rest (k + 1) k (by omega)
        simp [mutateLoop, hp, List.countP_cons, isAssignFor, h0]
      · have hne : (i == k) = false := by simp; omega
        have hrec := ih (i + 1) k (by omega)
          (by simp only [List.length_cons] at h2; omega)
          (by simp only [List.length_cons] at h3; omega)
        simp [mutateLoop, hp, List.countP_cons, isAssignFor, hne, hrec]

end Lemmas

/-! The remaining claims. -/

/-- C5: for every settings value with an empty providers list, with zero
eligible providers, or where every eligible provider's fetch fails, the
processing function is still invoked exactly once, with an empty sequence,
and whenever that invocation fulfils, the session result resolves with its
result — the processing step is never skipped. -/
theorem C5_empty_session_still_processes {Cfg Exec Res : Type} [Inhabited Res]
    (s : ClientSettings Cfg Exec Res)
    (h : s.providers = []
        ∨ (∀ p ∈ s.providers, p.shouldRun = false)
        ∨ (∀ ip ∈ eligiblePairs s.providers 0,
            ip.2.fetchSessionConfig.toOption = none)) :
    (init s).1.countP isProcessCall = 1
      ∧ Event.processCall [] ∈ (init s).1
      ∧ ∀ r, (s.sessionProcess.getD defaultSessionProcessFunc) [] = Except.ok r →
          (init s).2 = POutcome.resolved r := by
  have hnil : sessionConfigsOf s = [] := sessionConfigsOf_eq_nil h
  have henr : enrichedConfigs s = [] := by
    simp [enrichedConfigs, hnil, enrichFrom]
  refine ⟨?_, ?_, ?_⟩
  · rw [countP_isProcessCall_init]
    exact countP_isProcessCall_start s
  · have := processCall_mem_start s
    rw [henr] at this
    exact processCall_mem_init this
  · intro r hr
    have hs : (start s).2 = POutcome.resolved r := by
      rw [start_eq]
      simp [henr, hr, outcomeOfExcept]
    exact init_snd_resolved hs

/-- C5 witness: `settingsEmptyOk` has no providers; its processing override
fulfils with 5, is dispatched exactly once with the empty sequence, and
`init` resolves with 5. -/
theorem C5_witness :
    settingsEmptyOk.providers = []
      ∧ ((init settingsEmptyOk).1.countP isProcessCall = 1
          ∧ Event.processCall [] ∈ (init settingsEmptyOk).1
          ∧ ∀ r, (settingsEmptyOk.sessionProcess.getD defaultSessionProcessFunc) []
                = Except.ok r →
              (init settingsEmptyOk).2 = POutcome.resolved r)
      ∧ (init settingsEmptyOk).2 = POutcome.resolved 5 :=
  ⟨rfl, C5_empty_session_still_processes settingsEmptyOk (Or.inl rfl),
    (C5_empty_session_still_processes settingsEmptyOk (Or.inl rfl)).2.2 5 rfl⟩

/-- C7: when `preConfigStartDelay` is a present positive duration `d`, the
orchestration is scheduled through exactly one single-shot (non-recurring)
timer registration of duration `d`, and whatever the delayed orchestration
resolves with becomes `init`'s result; when the delay is absent or zero
(falsy), no timer is registered and the orchestrator runs immediately:
`init` is exactly `start`. -/
theorem C7_delay_scheduling {Cfg Exec Res : Type} [Inhabited Res]
    (s : ClientSettings Cfg Exec Res) :
    (∀ d, s.preConfigStartDelay = some d → 0 < d →
        (init s).1.countP isTimerSet = 1
          ∧ Event.timerSet d false ∈ (init s).1
          ∧ ∀ r, (start s).2 = POutcome.resolved r →
              (init s).2 = POutcome.resolved r)
      ∧ ((s.preConfigStartDelay = none ∨ s.preConfigStartDelay = some 0) →
          (init s).1.countP isTimerSet = 0 ∧ init s = start s) := by
  constructor
  · intro d hd hpos
    have hne : d ≠ 0 := by omega
    have hfst : (init s).1 = Event.timerSet d false :: (start s).1 := by
      rw [init_eq_startLater hd hne, startLater_fst]
    refine ⟨?_, ?_, fun r hr => init_snd_resolved hr⟩
    · simp [hfst, List.countP_cons, isTimerSet, countP_isTimerSet_start]
    · simp [hfst]
  · intro h
    have he : init s = start s := init_eq_start_of_falsy h
    exact ⟨by rw [he]; exact countP_isTimerSet_start s, he⟩

/-- C7 witness: `settingsTimer` (delay 2) registers exactly one
non-recurring 2 ms timer and resolves with the orchestration's result 0;
`settingsAB` (no delay) registers no timer and runs `start` directly. -/
theorem C7_witness :
    ((init settingsTimer).1.countP isTimerSet = 1
        ∧ Event.timerSet 2 false ∈ (init settingsTimer).1
        ∧ (init settingsTimer).2 = POutcome.resolved 0)
      ∧ ((init settingsAB).1.countP isTimerSet = 0
        ∧ init settingsAB = start settingsAB) := by
  refine ⟨?_, (C7_delay_scheduling settingsAB).2 (Or.inl rfl)⟩
  have h := (C7_delay_scheduling settingsTimer).1 2 rfl (by decide)
  exact ⟨h.1, h.2.1, h.2.2 0 (by decide)⟩

/-- C8 counterexample: on `settingsDelayReject9` the processing function's
deferred result is a rejection with reason 9, which becomes the
orchestrator's result, but `init`'s (the session's) result stays pending
forever — the processing function's deferred result does not become the
session's result, refuting the claim as stated. -/
theorem C8_counterexample :
    (start settingsDelayReject9).2 = POutcome.rejected (Err.reason 9)
      ∧ (init settingsDelayReject9).2 = POutcome.pending
      ∧ (init settingsDelayReject9).2 ≠ (start settingsDelayReject9).2 := by
  decide

/-- C8 (amended): the final dispatch calls the settings-supplied
`sessionProcess` override when one is supplied and the default no-op
fallback otherwise, exactly once, passing it the ordered sequence of
enriched configuration containers that survived eligibility filtering and
fetch settlement; the processing function's deferred result becomes the
orchestrator's result, and the session's result whenever it is a fulfilment
or no start delay was configured (under a positive start delay a rejected
processing result leaves the session's deferred result pending). -/
theorem C8_dispatch_amended {Cfg Exec Res : Type} [Inhabited Res]
    (s : ClientSettings Cfg Exec Res) :
    (start s).2 = outcomeOfExcept
        ((s.sessionProcess.getD defaultSessionProcessFunc) (enrichedConfigs s))
      ∧ Event.processCall (enrichedConfigs s) ∈ (start s).1
      ∧ (start s).1.countP isProcessCall = 1
      ∧ (∀ r, (start s).2 = POutcome.resolved r → (init s).2 = POutcome.resolved r)
      ∧ ((s.preConfigStartDelay = none ∨ s.preConfigStartDelay = some 0) →
          (init s).2 = (start s).2) := by
  refine ⟨?_, processCall_mem_start s, countP_isProcessCall_start s,
    fun r hr => init_snd_resolved hr, fun h => by rw [init_eq_start_of_falsy h]⟩
  rw [start_eq]

/-- C8 witness: on `settingsFG` (no override, no delay) the default
processing function is dispatched with the surviving enriched sequence, the
orchestrator resolves with its result 0, and `init`'s result equals
`start`'s. -/
theorem C8_witness :
    (start settingsFG).2 = outcomeOfExcept
        ((settingsFG.sessionProcess.getD defaultSessionProcessFunc)
          (enrichedConfigs settingsFG))
      ∧ Event.processCall (enrichedConfigs settingsFG) ∈ (start settingsFG).1
      ∧ (init settingsFG).2 = POutcome.resolved 0
      ∧ (init settingsFG).2 = (start settingsFG).2 := by
  obtain ⟨h1, h2, _, h4, h5⟩ := C8_dispatch_amended settingsFG
  exact ⟨h1, h2, h4 0 (by decide), h5 (Or.inl rfl)⟩

/-- C9: the number of surviving configurations never exceeds the number of
configured providers, so every lookup `settings.providers[i]` performed by
the mutation loop is in bounds and the loop completes without dereferencing
a missing provider (it returns `ok`, never the `TypeError` branch). -/
theorem C9_lookup_in_bounds {Cfg Exec Res : Type}
    (s : ClientSettings Cfg Exec Res) :
    (sessionConfigsOf s).length ≤ s.providers.length
      ∧ (∀ k, k < (sessionConfigsOf s).length →
          (s.providers[k]?).isSome = true)
      ∧ (mutateLoop s.providers (sessionConfigsOf s) 0).2
          = Except.ok (enrichedConfigs s) := by
  refine ⟨sessionConfigsOf_length_le s, fun k hk => ?_, ?_⟩
  · have hlt : k < s.providers.length :=
      Nat.lt_of_lt_of_le hk (sessionConfigsOf_length_le s)
    rw [List.getElem?_eq_getElem hlt]
    rfl
  · exact mutateLoop_eq_ok s.providers (sessionConfigsOf s) 0
      (by simpa using sessionConfigsOf_length_le s)

/-- C9 witness: `settingsFG` has one surviving configuration and the lookup
at position 0 is in bounds. -/
theorem C9_witness :
    0 < (sessionConfigsOf settingsFG).length
      ∧ (settingsFG.providers[0]?).isSome = true :=
  ⟨by decide, (C9_lookup_in_bounds settingsFG).2.1 0 (by decide)⟩

/-- C10: each surviving configuration container reaches the processing
function as the very container its fetch produced at the same position —
with its `executables` field assigned exactly once (one assignment event
per surviving position) and every other field unchanged: position `k` of
the dispatched sequence is precisely position `k` of the fetched sequence
updated only in `executables`.  In this embedding object identity is
rendered as this positional in-place record update. -/
theorem C10_mutation_frame {Cfg Exec Res : Type} [Inhabited Res]
    (s : ClientSettings Cfg Exec Res) (k : Nat)
    (hk : k < (sessionConfigsOf s).length) :
    (enrichedConfigs s)[k]? =
        ((sessionConfigsOf s)[k]?).bind (fun v =>
          (s.providers[k]?).map
            (fun p => { v with executables := some p.expandTasks }))
      ∧ ((mutateLoop s.providers (sessionConfigsOf s) 0).1).countP
          (isAssignFor k) = 1
      ∧ Event.processCall (enrichedConfigs s) ∈ (start s).1 := by
  have hlt : k < s.providers.length :=
    Nat.lt_of_lt_of_le hk (sessionConfigsOf_length_le s)
  refine ⟨?_, ?_, processCall_mem_start s⟩
  · rw [enrichedConfigs, enrichFrom_getElem?, List.getElem?_eq_getElem hk,
      List.getElem?_eq_getElem hlt]
    simp [List.getElem?_eq_getElem hlt]
  · exact countP_isAssignFor_mutateLoop s.providers (sessionConfigsOf s) 0 k
      (Nat.zero_le k) (by simpa using hk)
      (by simpa using sessionConfigsOf_length_le s)

/-- C10 witness: on `settingsFG`, the surviving container at position 0 is
the fetched container updated only in `executables`, assigned exactly
once. -/
theorem C10_witness :
    0 < (sessionConfigsOf settingsFG).length
      ∧ ((enrichedConfigs settingsFG)[0]? =
            ((sessionConfigsOf settingsFG)[0]?).bind (fun v =>
              (settingsFG.providers[0]?).map
                (fun p => { v with executables := some p.expandTasks }))
          ∧ ((mutateLoop settingsFG.providers
              (sessionConfigsOf settingsFG) 0).1).countP (isAssignFor 0) = 1
          ∧ Event.processCall (enrichedConfigs settingsFG)
              ∈ (start settingsFG).1) :=
  ⟨by decide, C10_mutation_frame settingsFG 0 (by decide)⟩

end OpenInsights
